import Mathlib

/-!
Verification of the no2migen clock-domain-crossing cores.

This file gives a shallow embedding of the synchronous logic of
`src/no2migen/migen.py` and `src/no2migen/litex.py`:

* `NitroMuAcmXClk` (migen.py lines 158-196, litex.py lines 333-365):
  the toggle-handshake byte-stream crossing.  Each migen `sync` block
  becomes a step function on an explicit state record; the two clock
  domains are interleaved by an arbitrary schedule of events.
* `NitroUSB` (litex.py lines 48-209): the request/acknowledge bus bridge,
  including the PulseSynchronizer-based handshake, the read-data holding
  register and the synchronous fast path.
* `NitroMuAcmBuffered` (migen.py lines 261-317): the FIFO wrapper.

All registers reset to zero, as migen signals do.  Multi-bit signals are
modelled as `Nat` with explicit `% 2^w` truncation where a slice is taken.
-/

/-- One stream item: a data byte plus the end-of-record marker
(`in_data`/`in_last` resp. `out_data`/`out_last` in the source). -/
structure Item where
  data : Nat
  last : Bool
deriving DecidableEq, Repr

/-- Registers of `NitroMuAcmXClk` (migen.py lines 158-196).  `send_in`,
`ack_sync_in0/1` and `in_ready` live in the `in_` clock domain;
`send_sync_out0/1`, `out_valid` and `ack_out` live in the `out` domain.
(The litex.py copy names them `send_snk`, `ack_sync_snk`, `sink.ready`,
`send_sync_src`, `source.valid`, `ack_src`; the update equations are
identical.) -/
structure XClkState where
  send_in : Bool
  ack_sync_in0 : Bool
  ack_sync_in1 : Bool
  in_ready : Bool
  send_sync_out0 : Bool
  send_sync_out1 : Bool
  out_valid : Bool
  ack_out : Bool
deriving DecidableEq, Repr

/-- One clock edge of the `self.sync.in_` block (migen.py lines 184-189).
All right-hand sides read the pre-edge state, as migen synchronous
assignments do.  `in_valid` is the combinational input from the producer. -/
def inStep (x : XClkState) (in_valid : Bool) : XClkState :=
  { x with
    send_in := (x.send_in || (in_valid && !x.in_ready)) && !x.ack_sync_in0,
    ack_sync_in1 := x.ack_sync_in0,
    ack_sync_in0 := x.ack_out,
    in_ready := x.ack_sync_in0 && !x.ack_sync_in1 }

/-- One clock edge of the `self.sync.out` block (migen.py lines 191-196).
`out_ready` is the combinational input from the consumer. -/
def outStep (x : XClkState) (out_ready : Bool) : XClkState :=
  { x with
    send_sync_out1 := x.send_sync_out0,
    send_sync_out0 := x.send_in,
    out_valid := (x.out_valid && !out_ready) || (x.send_sync_out0 && !x.send_sync_out1),
    ack_out := (x.ack_out && x.send_sync_out0) || (x.out_valid && out_ready) }

/-- The combinational data path `self.out_data.eq(self.in_data)`
(migen.py line 179): the output byte is the instantaneous input byte;
no register of `NitroMuAcmXClk` appears in it. -/
def xclkOutData (_x : XClkState) (in_data : Nat) : Nat := in_data

/-- The combinational data path `self.out_last.eq(self.in_last)`
(migen.py line 180). -/
def xclkOutLast (_x : XClkState) (in_last : Bool) : Bool := in_last

/-- A scheduling event: one clock edge of the `in_` domain (with the
producer-willingness bit `w`) or one clock edge of the `out` domain
(with the consumer input `out_ready`).  An arbitrary list of events is an
arbitrary interleaving of the two unrelated clocks. -/
inductive Ev where
  | inS (w : Bool)
  | outS (rdy : Bool)
deriving DecidableEq, Repr

/-- Whole-system state: the crossing registers plus the environment.
`pv` is the producer's hold flag: once it drives `in_valid` it keeps it
(and the item) until it sees `in_ready` - the ready/valid contract.
`todo` is the list of items not yet accepted from the producer (its head
is what the producer drives on `in_data`/`in_last`); `done` is the list
of items the destination has observed so far. -/
structure SysState where
  x : XClkState
  pv : Bool
  todo : List Item
  done : List Item
deriving DecidableEq, Repr

/-- One step of the interleaved system.  On an `in_` edge the producer
drives `in_valid` when holding or willing; an item is accepted (popped)
exactly when `in_valid && in_ready`.  On an `out` edge the destination
observes `out_data`/`out_last` (combinationally the head of `todo`)
exactly when `out_valid && out_ready`. -/
def sysStep (σ : SysState) : Ev → SysState
  | .inS w =>
    let valid := σ.pv || (w && !σ.todo.isEmpty)
    { x := inStep σ.x valid,
      pv := valid && !σ.x.in_ready,
      todo := if valid && σ.x.in_ready then σ.todo.tail else σ.todo,
      done := σ.done }
  | .outS rdy =>
    { x := outStep σ.x rdy,
      pv := σ.pv,
      todo := σ.todo,
      done := σ.done ++ (if σ.x.out_valid && rdy then σ.todo.take 1 else []) }

/-- Reset state of the crossing: every register cleared. -/
def x0 : XClkState := ⟨false, false, false, false, false, false, false, false⟩

/-- Initial system state for a given input sequence. -/
def initSys (input : List Item) : SysState := ⟨x0, false, input, []⟩

/-- Run the interleaved system over a schedule. -/
def sysRun (σ : SysState) (evs : List Ev) : SysState := evs.foldl sysStep σ

/-- Abstraction of the system state to the booleans the handshake invariant
depends on: the eight crossing registers, the producer hold flag `pv`, and
`ne` (whether items remain in `todo`).  Short names follow the source:
`s` = `send_in`, `a0/a1` = `ack_sync_in`, `r` = `in_ready`,
`q0/q1` = `send_sync_out`, `v` = `out_valid`, `k` = `ack_out`. -/
structure Abs where
  s : Bool
  a0 : Bool
  a1 : Bool
  r : Bool
  q0 : Bool
  q1 : Bool
  v : Bool
  k : Bool
  pv : Bool
  ne : Bool
deriving DecidableEq, Repr

/-- Project a system state to its boolean abstraction. -/
def absOf (σ : SysState) : Abs :=
  ⟨σ.x.send_in, σ.x.ack_sync_in0, σ.x.ack_sync_in1, σ.x.in_ready,
   σ.x.send_sync_out0, σ.x.send_sync_out1, σ.x.out_valid, σ.x.ack_out,
   σ.pv, !σ.todo.isEmpty⟩

/-- The `in_` edge on the abstraction.  `ne2` is the emptiness bit of the
remaining input after a pop (it is only used when a pop happens). -/
def absIn (a : Abs) (w ne2 : Bool) : Abs :=
  let valid := a.pv || (w && a.ne)
  ⟨(a.s || (valid && !a.r)) && !a.a0,
   a.k, a.a0, a.a0 && !a.a1,
   a.q0, a.q1, a.v, a.k,
   valid && !a.r,
   if valid && a.r then ne2 else a.ne⟩

/-- The `out` edge on the abstraction. -/
def absOut (a : Abs) (rdy : Bool) : Abs :=
  ⟨a.s, a.a0, a.a1, a.r,
   a.s, a.q0,
   (a.v && !rdy) || (a.q0 && !a.q1),
   (a.k && a.q0) || (a.v && rdy),
   a.pv, a.ne⟩

/-- Reachable handshake states in which the in-flight item (if any) has
not yet been observed by the destination: the idle state, the send-raise
and synchronize phase, the wait-for-ready phase, and the drain phase
after an item completed.  Enumerated from the update equations of
migen.py lines 184-196. -/
def bitsA (a : Abs) : Bool :=
  (!a.pv || a.ne) &&
  ( (!a.s && !a.a0 && !a.a1 && !a.r && !a.q0 && !a.q1 && !a.v && !a.k && !a.pv)
  || ( a.s && !a.a0 && !a.a1 && !a.r && !a.q0 && !a.q1 && !a.v && !a.k && a.pv)
  || ( a.s && !a.a0 && !a.a1 && !a.r &&  a.q0 && !a.q1 && !a.v && !a.k && a.pv)
  || ( a.s && !a.a0 && !a.a1 && !a.r &&  a.q0 &&  a.q1 &&  a.v && !a.k && a.pv)
  || (!a.s &&  a.a0 &&  a.a1 && !a.r &&  a.q0 &&  a.q1 && !a.v &&  a.k)
  || (!a.s &&  a.a0 &&  a.a1 && !a.r && !a.q0 &&  a.q1 && !a.v &&  a.k)
  || (!a.s &&  a.a0 &&  a.a1 && !a.r && !a.q0 && !a.q1 && !a.v && !a.k)
  || (!a.s && !a.a0 &&  a.a1 && !a.r && !a.q0 && !a.q1 && !a.v && !a.k) )

/-- Reachable handshake states in which the in-flight item has been
observed by the destination but the producer has not yet seen
`in_ready`: the acknowledge is travelling back. -/
def bitsB (a : Abs) : Bool :=
  a.ne && a.pv &&
  ( ( a.s && !a.a0 && !a.a1 && !a.r && a.q0 && a.q1 && !a.v && a.k)
  || ( a.s &&  a.a0 && !a.a1 && !a.r && a.q0 && a.q1 && !a.v && a.k)
  || (!a.s &&  a.a0 &&  a.a1 &&  a.r && a.q0 && a.q1 && !a.v && a.k)
  || (!a.s &&  a.a0 &&  a.a1 &&  a.r && !a.q0 && a.q1 && !a.v && a.k)
  || (!a.s &&  a.a0 &&  a.a1 &&  a.r && !a.q0 && !a.q1 && !a.v && !a.k) )

lemma bitsA_inStep : ∀ s a0 a1 r q0 q1 v k pv ne w ne2 : Bool,
    bitsA ⟨s, a0, a1, r, q0, q1, v, k, pv, ne⟩ = true →
    r = false ∧ bitsA (absIn ⟨s, a0, a1, r, q0, q1, v, k, pv, ne⟩ w ne2) = true := by
  decide

lemma bitsA_outStep : ∀ s a0 a1 r q0 q1 v k pv ne rdy : Bool,
    bitsA ⟨s, a0, a1, r, q0, q1, v, k, pv, ne⟩ = true →
    ((v && rdy) = true → ne = true ∧ bitsB (absOut ⟨s, a0, a1, r, q0, q1, v, k, pv, ne⟩ rdy) = true) ∧
    ((v && rdy) = false → bitsA (absOut ⟨s, a0, a1, r, q0, q1, v, k, pv, ne⟩ rdy) = true) := by
  decide

lemma bitsB_outStep : ∀ s a0 a1 r q0 q1 v k pv ne rdy : Bool,
    bitsB ⟨s, a0, a1, r, q0, q1, v, k, pv, ne⟩ = true →
    v = false ∧ bitsB (absOut ⟨s, a0, a1, r, q0, q1, v, k, pv, ne⟩ rdy) = true := by
  decide

lemma bitsB_inStep : ∀ s a0 a1 r q0 q1 v k pv ne w ne2 : Bool,
    bitsB ⟨s, a0, a1, r, q0, q1, v, k, pv, ne⟩ = true →
    pv = true ∧ ne = true ∧
    (r = true → bitsA (absIn ⟨s, a0, a1, r, q0, q1, v, k, pv, ne⟩ w ne2) = true) ∧
    (r = false → bitsB (absIn ⟨s, a0, a1, r, q0, q1, v, k, pv, ne⟩ w ne2) = true) := by
  decide

lemma bitsB_ready_acked : ∀ s a0 a1 r q0 q1 v k pv ne : Bool,
    bitsB ⟨s, a0, a1, r, q0, q1, v, k, pv, ne⟩ = true → r = true → a0 = true := by
  decide

lemma sysStep_in_todo (σ : SysState) (w : Bool) :
    (sysStep σ (.inS w)).todo =
      if (σ.pv || (w && !σ.todo.isEmpty)) && σ.x.in_ready then σ.todo.tail else σ.todo := rfl

lemma sysStep_in_done (σ : SysState) (w : Bool) : (sysStep σ (.inS w)).done = σ.done := rfl

lemma sysStep_out_todo (σ : SysState) (rdy : Bool) : (sysStep σ (.outS rdy)).todo = σ.todo := rfl

lemma sysStep_out_done (σ : SysState) (rdy : Bool) :
    (sysStep σ (.outS rdy)).done =
      σ.done ++ (if σ.x.out_valid && rdy then σ.todo.take 1 else []) := rfl

/-- The main invariant relating handshake registers and item lists.
Phase A: every item in `done` was accepted by the producer;
`done ++ todo` is the whole input.  Phase B: the head of `todo` is the
in-flight item and the destination has already observed it, so `done`
ends with it and `done ++ todo.tail` is the whole input. -/
def XInv (input : List Item) (σ : SysState) : Prop :=
  (bitsA (absOf σ) = true ∧ σ.done ++ σ.todo = input) ∨
  (bitsB (absOf σ) = true ∧ σ.todo ≠ [] ∧ σ.done ++ σ.todo.tail = input ∧
    σ.done.getLast? = σ.todo.head?)

lemma absOf_inStep (σ : SysState) (w : Bool) :
    absOf (sysStep σ (.inS w)) = absIn (absOf σ) w (!σ.todo.tail.isEmpty) := by
  cases hc : (σ.pv || (w && !σ.todo.isEmpty)) && σ.x.in_ready <;>
    simp [absOf, sysStep, absIn, inStep, hc]

lemma absOf_outStep (σ : SysState) (rdy : Bool) :
    absOf (sysStep σ (.outS rdy)) = absOut (absOf σ) rdy := by
  simp [absOf, sysStep, absOut, outStep]

lemma take_one_append_tail {l : List Item} (h : l ≠ []) : l.take 1 ++ l.tail = l := by
  cases l with
  | nil => exact absurd rfl h
  | cons a t => simp

lemma xinv_step {input : List Item} {σ : SysState} (hI : XInv input σ) (e : Ev) :
    XInv input (sysStep σ e) := by
  cases e with
  | inS w =>
    rcases hI with ⟨hb, hl⟩ | ⟨hb, hne, hl, hlast⟩
    · -- phase A: in_ready is low, nothing pops
      obtain ⟨hr, hb'⟩ := bitsA_inStep σ.x.send_in σ.x.ack_sync_in0 σ.x.ack_sync_in1
        σ.x.in_ready σ.x.send_sync_out0 σ.x.send_sync_out1 σ.x.out_valid σ.x.ack_out
        σ.pv (!σ.todo.isEmpty) w (!σ.todo.tail.isEmpty) hb
      left
      refine ⟨?_, ?_⟩
      · rw [absOf_inStep]; exact hb'
      · rw [sysStep_in_done, sysStep_in_todo, hr]
        simpa using hl
    · -- phase B
      obtain ⟨hpv, _, hpop, hstay⟩ := bitsB_inStep σ.x.send_in σ.x.ack_sync_in0
        σ.x.ack_sync_in1 σ.x.in_ready σ.x.send_sync_out0 σ.x.send_sync_out1 σ.x.out_valid
        σ.x.ack_out σ.pv (!σ.todo.isEmpty) w (!σ.todo.tail.isEmpty) hb
      by_cases hr : σ.x.in_ready = true
      · -- the producer sees ready: the in-flight item pops, back to phase A
        left
        constructor
        · rw [absOf_inStep]; exact hpop hr
        · rw [sysStep_in_done, sysStep_in_todo, hr, hpv]
          simpa using hl
      · rw [Bool.not_eq_true] at hr
        right
        refine ⟨?_, ?_, ?_, ?_⟩
        · rw [absOf_inStep]; exact hstay hr
        · rw [sysStep_in_todo, hr]; simpa using hne
        · rw [sysStep_in_done, sysStep_in_todo, hr]; simpa using hl
        · rw [sysStep_in_done, sysStep_in_todo, hr]; simpa using hlast
  | outS rdy =>
    rcases hI with ⟨hb, hl⟩ | ⟨hb, hne, hl, hlast⟩
    · obtain ⟨hcons, hstay⟩ := bitsA_outStep σ.x.send_in σ.x.ack_sync_in0 σ.x.ack_sync_in1
        σ.x.in_ready σ.x.send_sync_out0 σ.x.send_sync_out1 σ.x.out_valid σ.x.ack_out
        σ.pv (!σ.todo.isEmpty) rdy hb
      by_cases hc : (σ.x.out_valid && rdy) = true
      · -- the destination observes the item: move to phase B
        obtain ⟨hne1, hb'⟩ := hcons hc
        have htne : σ.todo ≠ [] := by
          simpa [List.isEmpty_iff] using hne1
        right
        refine ⟨?_, ?_, ?_, ?_⟩
        · rw [absOf_outStep]; exact hb'
        · rw [sysStep_out_todo]; exact htne
        · rw [sysStep_out_done, sysStep_out_todo, hc]
          rw [if_pos rfl, List.append_assoc, take_one_append_tail htne]
          exact hl
        · rw [sysStep_out_done, sysStep_out_todo, hc, if_pos rfl]
          obtain ⟨y, t, hyt⟩ := List.exists_cons_of_ne_nil htne
          rw [hyt]
          simp
      · rw [Bool.not_eq_true] at hc
        left
        refine ⟨?_, ?_⟩
        · rw [absOf_outStep]; exact hstay hc
        · rw [sysStep_out_done, sysStep_out_todo, hc]
          simpa using hl
    · obtain ⟨hv, hb'⟩ := bitsB_outStep σ.x.send_in σ.x.ack_sync_in0 σ.x.ack_sync_in1
        σ.x.in_ready σ.x.send_sync_out0 σ.x.send_sync_out1 σ.x.out_valid σ.x.ack_out
        σ.pv (!σ.todo.isEmpty) rdy hb
      have hc : (σ.x.out_valid && rdy) = false := by simp [hv]
      right
      refine ⟨?_, ?_, ?_, ?_⟩
      · rw [absOf_outStep]; exact hb'
      · rw [sysStep_out_todo]; exact hne
      · rw [sysStep_out_done, sysStep_out_todo, hc]; simpa using hl
      · rw [sysStep_out_done, sysStep_out_todo, hc]; simpa using hlast

lemma xinv_run {input : List Item} {σ : SysState} (hI : XInv input σ) (evs : List Ev) :
    XInv input (sysRun σ evs) := by
  induction evs generalizing σ with
  | nil => exact hI
  | cons e es ih => exact ih (xinv_step hI e)

lemma xinv_init (input : List Item) : XInv input (initSys input) := by
  left
  exact ⟨rfl, by simp [initSys]⟩

/-- A fixed schedule that moves one item across the boundary and returns
every register to the reset state: raise the send, synchronize, consume
with `out_ready` high, return the acknowledge, pulse `in_ready` (the item
pops), and drain the handshake. -/
def perItem : List Ev :=
  [.inS true, .outS true, .outS true, .outS true,
   .inS true, .inS true, .inS true,
   .outS true, .outS true, .inS false, .inS false]

/-- Concatenation of `n` per-item rounds. -/
def deliverSched : Nat → List Ev
  | 0 => []
  | n + 1 => perItem ++ deliverSched n

lemma sysRun_append (σ : SysState) (l1 l2 : List Ev) :
    sysRun σ (l1 ++ l2) = sysRun (sysRun σ l1) l2 :=
  List.foldl_append ..

lemma sysRun_perItem (y : Item) (t d : List Item) :
    sysRun ⟨x0, false, y :: t, d⟩ perItem = ⟨x0, false, t, d ++ [y]⟩ := by
  simp [sysRun, perItem, sysStep, inStep, outStep, x0]

lemma sysRun_deliver : ∀ input d : List Item,
    sysRun ⟨x0, false, input, d⟩ (deliverSched input.length) = ⟨x0, false, [], d ++ input⟩ := by
  intro input
  induction input with
  | nil => intro d; simp [deliverSched, sysRun]
  | cons y t ih =>
    intro d
    show sysRun _ (deliverSched (t.length + 1)) = _
    rw [deliverSched, sysRun_append, sysRun_perItem, ih (d ++ [y])]
    simp

lemma eq_take_of_append {α : Type} {d rest inp : List α} (h : d ++ rest = inp) :
    d = inp.take d.length := by
  rw [← h, List.take_left]

/-- Claim C1: for every input sequence handed to `NitroMuAcmXClk` by a
producer that honors the ready/valid contract, and every interleaving of
`in_`-domain and `out`-domain clock edges (destination faster, slower or
equal), the sequence of (byte, boundary-marker) items observed at the
destination is always an initial segment of the input sequence - same
items, same order, none duplicated, none skipped - and the fair schedule
`deliverSched` delivers the entire input. -/
theorem xclk_stream_order_preserved (input : List Item) :
    (∀ evs : List Ev,
      (sysRun (initSys input) evs).done =
        input.take (sysRun (initSys input) evs).done.length) ∧
    (sysRun (initSys input) (deliverSched input.length)).done = input := by
  constructor
  · intro evs
    rcases xinv_run (xinv_init input) evs with ⟨_, hl⟩ | ⟨_, _, hl, _⟩
    · exact eq_take_of_append hl
    · exact eq_take_of_append hl
  · show (sysRun ⟨x0, false, input, []⟩ _).done = input
    rw [sysRun_deliver input []]
    simp

/-- Claim C4: the destination-domain valid output of `NitroMuAcmXClk`
follows exactly the single-slot-buffer update equation of migen.py line
194: after every `out`-domain edge, `out_valid` equals
`(out_valid & ~out_ready) | (send_sync_out[0] & ~send_sync_out[1])` over
the pre-edge values - valid is held until downstream ready, and is newly
set exactly when a change of the synchronized send level is detected. -/
theorem xclk_out_valid_update (x : XClkState) (rdy : Bool) :
    (outStep x rdy).out_valid =
      ((x.out_valid && !rdy) || (x.send_sync_out0 && !x.send_sync_out1)) ∧
    ((outStep x rdy).out_valid = true ↔
      ((x.out_valid = true ∧ rdy = false) ∨
       (x.send_sync_out0 = true ∧ x.send_sync_out1 = false))) := by
  constructor
  · rfl
  · cases hx : x.out_valid <;> cases rdy <;>
      cases hq0 : x.send_sync_out0 <;> cases hq1 : x.send_sync_out1 <;>
      simp [outStep, hx, hq0, hq1]

/-- Claim C5: in every reachable state of the interleaved system, whenever
`NitroMuAcmXClk` asserts `in_ready` (= `sink.ready`) to the upstream
producer, the acknowledge level has already crossed back through the
synchronizer (`ack_sync_in[0]` is set), and the item the producer is
about to count as accepted - the head of `todo` - has already been
consumed by the destination in an earlier `out`-domain step: it is the
last entry of `done`, and `done` together with the not-yet-sent remainder
accounts for the whole input.  Data is never claimed accepted before the
acknowledgment round-trip confirms its consumption. -/
theorem xclk_ready_after_roundtrip (input : List Item) (evs : List Ev)
    (h : (sysRun (initSys input) evs).x.in_ready = true) :
    (sysRun (initSys input) evs).x.ack_sync_in0 = true ∧
    (sysRun (initSys input) evs).todo ≠ [] ∧
    (sysRun (initSys input) evs).done.getLast? = (sysRun (initSys input) evs).todo.head? ∧
    (sysRun (initSys input) evs).done ++ (sysRun (initSys input) evs).todo.tail = input := by
  set σ := sysRun (initSys input) evs with hσ
  rcases xinv_run (xinv_init input) evs with ⟨hb, _⟩ | ⟨hb, hne, hl, hlast⟩
  · exact absurd h (by
      have hr := (bitsA_inStep σ.x.send_in σ.x.ack_sync_in0 σ.x.ack_sync_in1
        σ.x.in_ready σ.x.send_sync_out0 σ.x.send_sync_out1 σ.x.out_valid σ.x.ack_out
        σ.pv (!σ.todo.isEmpty) false false hb).1
      simp [hr])
  · refine ⟨?_, hne, hlast, hl⟩
    exact bitsB_ready_acked σ.x.send_in σ.x.ack_sync_in0 σ.x.ack_sync_in1
      σ.x.in_ready σ.x.send_sync_out0 σ.x.send_sync_out1 σ.x.out_valid σ.x.ack_out
      σ.pv (!σ.todo.isEmpty) hb h

/-- Schedule reaching the state in which `in_ready` pulses. -/
def readyEvs : List Ev :=
  [.inS true, .outS true, .outS true, .outS true, .inS true, .inS true]

theorem xclk_ready_after_roundtrip_witness :
    (sysRun (initSys [⟨65, false⟩]) readyEvs).x.in_ready = true ∧
    ((sysRun (initSys [⟨65, false⟩]) readyEvs).x.ack_sync_in0 = true ∧
     (sysRun (initSys [⟨65, false⟩]) readyEvs).todo ≠ [] ∧
     (sysRun (initSys [⟨65, false⟩]) readyEvs).done.getLast? =
       (sysRun (initSys [⟨65, false⟩]) readyEvs).todo.head? ∧
     (sysRun (initSys [⟨65, false⟩]) readyEvs).done ++
       (sysRun (initSys [⟨65, false⟩]) readyEvs).todo.tail = [⟨65, false⟩]) :=
  ⟨by decide, xclk_ready_after_roundtrip [⟨65, false⟩] readyEvs (by decide)⟩

/-- Claim C9: `NitroMuAcmXClk` never registers the payload.  The
combinational data path makes `out_data`/`out_last` equal to
`in_data`/`in_last` at every instant, independent of any internal state,
and therefore the item recorded at a delivery step (`out_valid` and
`out_ready` both high) is exactly what the producer is driving at that
moment - correct delivery relies on the producer holding the item from
asserting valid until ready is observed. -/
theorem xclk_payload_combinational (x x2 : XClkState) (d : Nat) (l : Bool)
    (σ : SysState) (rdy : Bool) :
    xclkOutData x d = d ∧ xclkOutData x d = xclkOutData x2 d ∧
    xclkOutLast x l = l ∧ xclkOutLast x l = xclkOutLast x2 l ∧
    (sysStep σ (.outS rdy)).done =
      σ.done ++ (if σ.x.out_valid && rdy then σ.todo.take 1 else []) :=
  ⟨rfl, rfl, rfl, rfl, rfl⟩

/-!
The `NitroUSB` asynchronous bridge (litex.py lines 90-141 and 200-209).

Only a single-bit request/acknowledge handshake crosses the domains, via
two `migen.genlib.cdc.PulseSynchronizer` instances.  A PulseSynchronizer
holds a toggle flip-flop in the input domain (`If(i, toggle_i.eq(~toggle_i))`),
a two-stage MultiReg synchronizer plus a delay register in the output
domain, and emits `o = toggle_o ^ toggle_o_r`.  Those registers are
embedded here explicitly: `req_*` is `ps_req` ("sys" to "usb_48") and
`ack_*` is `ps_ack` ("usb_48" to "sys").

The opaque `usb` core instance is the responder environment: it may
assert `ub_ack` at any `usb_48` edge during which `ub_cyc` is high, and
the 16-bit read value it produces at its n-th acknowledge is `rdFun n`.
`outst`, `nAckU` and `nAckS` are ghost instrumentation (a transaction is
outstanding; acknowledges produced in the usb domain; acknowledges
observed in the sys domain).
-/

/-- Registers of the `NitroUSB` asynchronous bridge, plus ghost fields. -/
structure BridgeState where
  hs_cyc_d : Bool
  hs_ack_d : Bool
  req_toggle : Bool
  ack_sync1 : Bool
  ack_sync2 : Bool
  ack_toggle_r : Bool
  ub_cyc : Bool
  req_sync1 : Bool
  req_sync2 : Bool
  req_toggle_r : Bool
  ack_toggle : Bool
  b_rdata : Nat
  outst : Bool
  nAckU : Nat
  nAckS : Nat
deriving DecidableEq, Repr

/-- `ps_ack.o` = `hs_ack` = `b_ack_core` (litex.py lines 127-129):
combinational edge detector in the sys domain. -/
def hs_ack (σ : BridgeState) : Bool := σ.ack_sync2 != σ.ack_toggle_r

/-- `ps_req.o`: combinational edge detector in the usb_48 domain. -/
def ps_req_o (σ : BridgeState) : Bool := σ.req_sync2 != σ.req_toggle_r

/-- `ps_req.i.eq(hs_cyc & (~hs_cyc_d | hs_ack_d))` (litex.py line 126).
`cyc` is the combinational request level `hs_cyc = b_cyc_core =
bus.cyc & bus.stb & ~bus.adr[13]` driven by the initiator. -/
def reqPulse (σ : BridgeState) (cyc : Bool) : Bool :=
  cyc && (!σ.hs_cyc_d || σ.hs_ack_d)

/-- One `sys`-domain clock edge (litex.py lines 115-118 plus the sys-side
registers of both PulseSynchronizers). -/
def sysStepB (σ : BridgeState) (cyc : Bool) : BridgeState :=
  let ha := hs_ack σ
  let pulse := reqPulse σ cyc
  { σ with
    hs_cyc_d := cyc,
    hs_ack_d := ha,
    req_toggle := if pulse then !σ.req_toggle else σ.req_toggle,
    ack_sync1 := σ.ack_toggle,
    ack_sync2 := σ.ack_sync1,
    ack_toggle_r := σ.ack_sync2,
    outst := (σ.outst || pulse) && !ha,
    nAckS := if ha then σ.nAckS + 1 else σ.nAckS }

/-- One `usb_48`-domain clock edge (litex.py lines 103 and 120-122 plus
the usb-side registers of both PulseSynchronizers).  `ack` is the
responder input `ub_ack`; on an acknowledge the 16-bit holding register
`b_rdata_core[0:16]` captures `ub_rdata`. -/
def usbStepB (rdFun : Nat → Nat) (σ : BridgeState) (ack : Bool) : BridgeState :=
  { σ with
    ub_cyc := (σ.ub_cyc || ps_req_o σ) && !ack,
    req_sync1 := σ.req_toggle,
    req_sync2 := σ.req_sync1,
    req_toggle_r := σ.req_sync2,
    ack_toggle := if ack then !σ.ack_toggle else σ.ack_toggle,
    b_rdata := if ack then rdFun σ.nAckU % 65536 else σ.b_rdata,
    nAckU := if ack then σ.nAckU + 1 else σ.nAckU }

/-- A bridge event: a `sys` edge with the request level, or a `usb_48`
edge with the responder acknowledge. -/
inductive BEv where
  | sysE (cyc : Bool)
  | usbE (ack : Bool)
deriving DecidableEq, Repr

def bridgeStep (rdFun : Nat → Nat) (σ : BridgeState) : BEv → BridgeState
  | .sysE cyc => sysStepB σ cyc
  | .usbE ack => usbStepB rdFun σ ack

/-- Environment contract for one event: the initiator holds the request
level until it observes the acknowledge, and the responder acknowledges
only while `ub_cyc` is asserted. -/
def validEv (σ : BridgeState) : BEv → Bool
  | .sysE cyc => !σ.outst || cyc
  | .usbE ack => !ack || σ.ub_cyc

/-- Whole-trace environment contract. -/
def validRun (rdFun : Nat → Nat) (σ : BridgeState) : List BEv → Bool
  | [] => true
  | e :: es => validEv σ e && validRun rdFun (bridgeStep rdFun σ e) es

def bridgeRun (rdFun : Nat → Nat) (σ : BridgeState) (evs : List BEv) : BridgeState :=
  evs.foldl (bridgeStep rdFun) σ

/-- Reset state of the bridge. -/
def initB : BridgeState :=
  ⟨false, false, false, false, false, false, false, false, false, false, false, 0, false, 0, 0⟩

/-- Boolean abstraction of the bridge registers and the ghost busy bit. -/
structure BAbs where
  cd : Bool
  ad : Bool
  rt : Bool
  as1 : Bool
  as2 : Bool
  atr : Bool
  ub : Bool
  rs1 : Bool
  rs2 : Bool
  rtr : Bool
  ak : Bool
  outst : Bool
deriving DecidableEq, Repr

def babsOf (σ : BridgeState) : BAbs :=
  ⟨σ.hs_cyc_d, σ.hs_ack_d, σ.req_toggle, σ.ack_sync1, σ.ack_sync2, σ.ack_toggle_r,
   σ.ub_cyc, σ.req_sync1, σ.req_sync2, σ.req_toggle_r, σ.ack_toggle, σ.outst⟩

def babsSys (a : BAbs) (cyc : Bool) : BAbs :=
  let ha := a.as2 != a.atr
  let pulse := cyc && (!a.cd || a.ad)
  ⟨cyc, ha, if pulse then !a.rt else a.rt, a.ak, a.as1, a.as2,
   a.ub, a.rs1, a.rs2, a.rtr, a.ak, (a.outst || pulse) && !ha⟩

def babsUsb (a : BAbs) (ack : Bool) : BAbs :=
  ⟨a.cd, a.ad, a.rt, a.as1, a.as2, a.atr,
   (a.ub || (a.rs2 != a.rtr)) && !ack, a.rt, a.rs1, a.rs2,
   if ack then !a.ak else a.ak, a.outst⟩

/-- Reachable bridge states with no acknowledge in flight back to the sys
domain (ghost counters agree): idle, request-toggle crossing, responder
busy, and the one-cycle post-completion state.  Enumerated from litex.py
lines 103-130 under the environment contract. -/
def bitsEqB (a : BAbs) : Bool :=
  let dA := a.rt != a.rs1
  let dB := a.rs1 != a.rs2
  let dC := a.rs2 != a.rtr
  let eA := a.ak != a.as1
  let eB := a.as1 != a.as2
  let eC := a.as2 != a.atr
  let eNone := !eA && !eB && !eC
  ( (!dA && !dB && !dC && eNone && !a.ub && !a.cd && !a.ad && !a.outst)
  || ( dA && !dB && !dC && eNone && !a.ub && a.cd && !a.ad && a.outst)
  || (!dA &&  dB && !dC && eNone && !a.ub && a.cd && !a.ad && a.outst)
  || (!dA && !dB &&  dC && eNone && !a.ub && a.cd && !a.ad && a.outst)
  || (!dA && !dB && !dC && eNone &&  a.ub && a.cd && !a.ad && a.outst)
  || (!dA && !dB && !dC && eNone && !a.ub && a.cd &&  a.ad && !a.outst) )

/-- Reachable bridge states with the acknowledge toggle travelling back
(one more acknowledge produced than observed). -/
def bitsOffB (a : BAbs) : Bool :=
  let dNone := !(a.rt != a.rs1) && !(a.rs1 != a.rs2) && !(a.rs2 != a.rtr)
  let eA := a.ak != a.as1
  let eB := a.as1 != a.as2
  let eC := a.as2 != a.atr
  dNone && !a.ub && a.cd && !a.ad && a.outst &&
  ( ( eA && !eB && !eC) || (!eA && eB && !eC) || (!eA && !eB && eC) )

lemma bitsEqB_sys : ∀ cd ad rt as1 as2 atr ub rs1 rs2 rtr ak outst cyc : Bool,
    (!outst || cyc) = true →
    bitsEqB ⟨cd, ad, rt, as1, as2, atr, ub, rs1, rs2, rtr, ak, outst⟩ = true →
    (as2 != atr) = false ∧
    bitsEqB (babsSys ⟨cd, ad, rt, as1, as2, atr, ub, rs1, rs2, rtr, ak, outst⟩ cyc) = true := by
  decide

lemma bitsOffB_sys : ∀ cd ad rt as1 as2 atr ub rs1 rs2 rtr ak outst cyc : Bool,
    (!outst || cyc) = true →
    bitsOffB ⟨cd, ad, rt, as1, as2, atr, ub, rs1, rs2, rtr, ak, outst⟩ = true →
    ((as2 != atr) = true →
      bitsEqB (babsSys ⟨cd, ad, rt, as1, as2, atr, ub, rs1, rs2, rtr, ak, outst⟩ cyc) = true) ∧
    ((as2 != atr) = false →
      bitsOffB (babsSys ⟨cd, ad, rt, as1, as2, atr, ub, rs1, rs2, rtr, ak, outst⟩ cyc) = true) := by
  decide

lemma bitsEqB_usb : ∀ cd ad rt as1 as2 atr ub rs1 rs2 rtr ak outst ack : Bool,
    (!ack || ub) = true →
    bitsEqB ⟨cd, ad, rt, as1, as2, atr, ub, rs1, rs2, rtr, ak, outst⟩ = true →
    (ack = true →
      bitsOffB (babsUsb ⟨cd, ad, rt, as1, as2, atr, ub, rs1, rs2, rtr, ak, outst⟩ ack) = true) ∧
    (ack = false →
      bitsEqB (babsUsb ⟨cd, ad, rt, as1, as2, atr, ub, rs1, rs2, rtr, ak, outst⟩ ack) = true) := by
  decide

lemma bitsOffB_usb : ∀ cd ad rt as1 as2 atr ub rs1 rs2 rtr ak outst : Bool,
    bitsOffB ⟨cd, ad, rt, as1, as2, atr, ub, rs1, rs2, rtr, ak, outst⟩ = true →
    ub = false ∧
    bitsOffB (babsUsb ⟨cd, ad, rt, as1, as2, atr, ub, rs1, rs2, rtr, ak, outst⟩ false) = true := by
  decide

lemma bits_pulse_quiescent : ∀ cd ad rt as1 as2 atr ub rs1 rs2 rtr ak outst cyc : Bool,
    (bitsEqB ⟨cd, ad, rt, as1, as2, atr, ub, rs1, rs2, rtr, ak, outst⟩ ||
     bitsOffB ⟨cd, ad, rt, as1, as2, atr, ub, rs1, rs2, rtr, ak, outst⟩) = true →
    (cyc && (!cd || ad)) = true →
    (!outst && !ub && (rt == rs1) && (rs1 == rs2) && (rs2 == rtr) &&
     (ak == as1) && (as1 == as2) && (as2 == atr)) = true := by
  decide

lemma bitsOffB_outst : ∀ cd ad rt as1 as2 atr ub rs1 rs2 rtr ak outst : Bool,
    bitsOffB ⟨cd, ad, rt, as1, as2, atr, ub, rs1, rs2, rtr, ak, outst⟩ = true →
    outst = true := by
  decide

lemma bitsEqB_no_ack : ∀ cd ad rt as1 as2 atr ub rs1 rs2 rtr ak outst : Bool,
    bitsEqB ⟨cd, ad, rt, as1, as2, atr, ub, rs1, rs2, rtr, ak, outst⟩ = true →
    (as2 != atr) = false := by
  decide

/-- Bridge invariant: the holding register contains the value produced at
the most recent acknowledge, and either no acknowledge is in flight back
(counters agree) or exactly one is (counters differ by one). -/
def BInv (rdFun : Nat → Nat) (σ : BridgeState) : Prop :=
  (σ.b_rdata = if σ.nAckU = 0 then 0 else rdFun (σ.nAckU - 1) % 65536) ∧
  ((bitsEqB (babsOf σ) = true ∧ σ.nAckU = σ.nAckS) ∨
   (bitsOffB (babsOf σ) = true ∧ σ.nAckU = σ.nAckS + 1))

lemma binv_step (rdFun : Nat → Nat) {σ : BridgeState} (hI : BInv rdFun σ) {e : BEv}
    (hv : validEv σ e = true) : BInv rdFun (bridgeStep rdFun σ e) := by
  obtain ⟨hrd, hph⟩ := hI
  cases e with
  | sysE cyc =>
    have hv' : (!σ.outst || cyc) = true := hv
    constructor
    · exact hrd
    · rcases hph with ⟨hb, hc⟩ | ⟨hb, hc⟩
      · obtain ⟨hec, hb'⟩ := bitsEqB_sys σ.hs_cyc_d σ.hs_ack_d σ.req_toggle σ.ack_sync1
          σ.ack_sync2 σ.ack_toggle_r σ.ub_cyc σ.req_sync1 σ.req_sync2 σ.req_toggle_r
          σ.ack_toggle σ.outst cyc hv' hb
        left
        refine ⟨hb', ?_⟩
        show σ.nAckU = if hs_ack σ then σ.nAckS + 1 else σ.nAckS
        rw [show hs_ack σ = false from hec]
        simpa using hc
      · obtain ⟨hup, hdown⟩ := bitsOffB_sys σ.hs_cyc_d σ.hs_ack_d σ.req_toggle σ.ack_sync1
          σ.ack_sync2 σ.ack_toggle_r σ.ub_cyc σ.req_sync1 σ.req_sync2 σ.req_toggle_r
          σ.ack_toggle σ.outst cyc hv' hb
        cases hec : (σ.ack_sync2 != σ.ack_toggle_r) with
        | true =>
          left
          refine ⟨hup hec, ?_⟩
          show σ.nAckU = if hs_ack σ then σ.nAckS + 1 else σ.nAckS
          rw [show hs_ack σ = true from hec]
          simpa using hc
        | false =>
          right
          refine ⟨hdown hec, ?_⟩
          show σ.nAckU = (if hs_ack σ then σ.nAckS + 1 else σ.nAckS) + 1
          rw [show hs_ack σ = false from hec]
          simpa using hc
  | usbE ack =>
    have hv' : (!ack || σ.ub_cyc) = true := hv
    cases ack with
    | false =>
      constructor
      · exact hrd
      · rcases hph with ⟨hb, hc⟩ | ⟨hb, hc⟩
        · obtain ⟨_, hstay⟩ := bitsEqB_usb σ.hs_cyc_d σ.hs_ack_d σ.req_toggle σ.ack_sync1
            σ.ack_sync2 σ.ack_toggle_r σ.ub_cyc σ.req_sync1 σ.req_sync2 σ.req_toggle_r
            σ.ack_toggle σ.outst false hv' hb
          exact Or.inl ⟨hstay rfl, hc⟩
        · obtain ⟨_, hstay⟩ := bitsOffB_usb σ.hs_cyc_d σ.hs_ack_d σ.req_toggle σ.ack_sync1
            σ.ack_sync2 σ.ack_toggle_r σ.ub_cyc σ.req_sync1 σ.req_sync2 σ.req_toggle_r
            σ.ack_toggle σ.outst hb
          exact Or.inr ⟨hstay, hc⟩
    | true =>
      rcases hph with ⟨hb, hc⟩ | ⟨hb, hc⟩
      · obtain ⟨hto, _⟩ := bitsEqB_usb σ.hs_cyc_d σ.hs_ack_d σ.req_toggle σ.ack_sync1
          σ.ack_sync2 σ.ack_toggle_r σ.ub_cyc σ.req_sync1 σ.req_sync2 σ.req_toggle_r
          σ.ack_toggle σ.outst true hv' hb
        refine ⟨?_, Or.inr ⟨hto rfl, ?_⟩⟩
        · show (if true = true then rdFun σ.nAckU % 65536 else σ.b_rdata) =
            if (if true = true then σ.nAckU + 1 else σ.nAckU) = 0 then 0
            else rdFun ((if true = true then σ.nAckU + 1 else σ.nAckU) - 1) % 65536
          simp
        · show (if true = true then σ.nAckU + 1 else σ.nAckU) = σ.nAckS + 1
          simpa using hc
      · exfalso
        obtain ⟨hub, _⟩ := bitsOffB_usb σ.hs_cyc_d σ.hs_ack_d σ.req_toggle σ.ack_sync1
          σ.ack_sync2 σ.ack_toggle_r σ.ub_cyc σ.req_sync1 σ.req_sync2 σ.req_toggle_r
          σ.ack_toggle σ.outst hb
        rw [hub] at hv'
        exact absurd hv' (by simp)

lemma binv_run (rdFun : Nat → Nat) (evs : List BEv) {σ : BridgeState}
    (hI : BInv rdFun σ) (hv : validRun rdFun σ evs = true) :
    BInv rdFun (bridgeRun rdFun σ evs) := by
  induction evs generalizing σ with
  | nil => exact hI
  | cons e es ih =>
    rw [validRun, Bool.and_eq_true] at hv
    exact ih (binv_step rdFun hI hv.1) hv.2

lemma binv_init (rdFun : Nat → Nat) : BInv rdFun initB := by
  refine ⟨by simp [initB], Or.inl ⟨by decide, rfl⟩⟩

/-- `bus.dat_r.eq(Mux(b_ack_ep, b_rdata_ep, b_rdata_core))`
(litex.py line 205). -/
def busDatR (ack_ep : Bool) (rdata_ep rdata_core : Nat) : Nat :=
  if ack_ep then rdata_ep else rdata_core

/-- Claim C2: under the precondition that the initiator holds its request
(`cyc & stb` and the request fields) until it observes the acknowledge,
the bridge has at most one transaction in flight: whenever the request
pulse `ps_req.i` fires, no transaction is outstanding - the ghost busy
bit is clear, `ub_cyc` is low, every produced acknowledge has been
observed (`nAckU = nAckS`), and both PulseSynchronizer toggle chains are
fully settled, so the pulse can only be the first one after the previous
acknowledge was observed.  Moreover `ub_cyc`, once raised, stays raised
on any `usb_48` edge without `ub_ack`. -/
theorem nitrousb_single_inflight (rdFun : Nat → Nat) (evs : List BEv) (cyc : Bool)
    (hv : validRun rdFun initB evs = true)
    (hp : reqPulse (bridgeRun rdFun initB evs) cyc = true) :
    (bridgeRun rdFun initB evs).outst = false ∧
    (bridgeRun rdFun initB evs).ub_cyc = false ∧
    (bridgeRun rdFun initB evs).nAckU = (bridgeRun rdFun initB evs).nAckS ∧
    (bridgeRun rdFun initB evs).req_toggle = (bridgeRun rdFun initB evs).req_sync1 ∧
    (bridgeRun rdFun initB evs).req_sync1 = (bridgeRun rdFun initB evs).req_sync2 ∧
    (bridgeRun rdFun initB evs).req_sync2 = (bridgeRun rdFun initB evs).req_toggle_r ∧
    (bridgeRun rdFun initB evs).ack_toggle = (bridgeRun rdFun initB evs).ack_sync1 ∧
    (bridgeRun rdFun initB evs).ack_sync1 = (bridgeRun rdFun initB evs).ack_sync2 ∧
    (bridgeRun rdFun initB evs).ack_sync2 = (bridgeRun rdFun initB evs).ack_toggle_r ∧
    (∀ τ : BridgeState, τ.ub_cyc = true → (usbStepB rdFun τ false).ub_cyc = true) := by
  set σ := bridgeRun rdFun initB evs with hσ
  obtain ⟨_, hph⟩ := binv_run rdFun evs (binv_init rdFun) hv
  have hor : (bitsEqB (babsOf σ) || bitsOffB (babsOf σ)) = true := by
    rcases hph with ⟨hb, _⟩ | ⟨hb, _⟩ <;> simp [hb]
  have hq := bits_pulse_quiescent σ.hs_cyc_d σ.hs_ack_d σ.req_toggle σ.ack_sync1
    σ.ack_sync2 σ.ack_toggle_r σ.ub_cyc σ.req_sync1 σ.req_sync2 σ.req_toggle_r
    σ.ack_toggle σ.outst cyc hor hp
  simp only [Bool.and_eq_true, Bool.not_eq_true', beq_iff_eq] at hq
  obtain ⟨⟨⟨⟨⟨⟨⟨ho, hub⟩, h1⟩, h2⟩, h3⟩, h4⟩, h5⟩, h6⟩ := hq
  have hcnt : σ.nAckU = σ.nAckS := by
    rcases hph with ⟨_, hc⟩ | ⟨hb, _⟩
    · exact hc
    · exact absurd (bitsOffB_outst σ.hs_cyc_d σ.hs_ack_d σ.req_toggle σ.ack_sync1
        σ.ack_sync2 σ.ack_toggle_r σ.ub_cyc σ.req_sync1 σ.req_sync2 σ.req_toggle_r
        σ.ack_toggle σ.outst hb) (by simp [ho])
  refine ⟨ho, hub, hcnt, h1, h2, h3, h4, h5, h6, ?_⟩
  intro τ hτ
  simp [usbStepB, hτ]

theorem nitrousb_single_inflight_witness :
    validRun (fun _ => 48879) initB [] = true ∧
    reqPulse (bridgeRun (fun _ => 48879) initB []) true = true ∧
    ((bridgeRun (fun _ => 48879) initB []).outst = false ∧
     (bridgeRun (fun _ => 48879) initB []).ub_cyc = false ∧
     (bridgeRun (fun _ => 48879) initB []).nAckU = (bridgeRun (fun _ => 48879) initB []).nAckS ∧
     (bridgeRun (fun _ => 48879) initB []).req_toggle = (bridgeRun (fun _ => 48879) initB []).req_sync1 ∧
     (bridgeRun (fun _ => 48879) initB []).req_sync1 = (bridgeRun (fun _ => 48879) initB []).req_sync2 ∧
     (bridgeRun (fun _ => 48879) initB []).req_sync2 = (bridgeRun (fun _ => 48879) initB []).req_toggle_r ∧
     (bridgeRun (fun _ => 48879) initB []).ack_toggle = (bridgeRun (fun _ => 48879) initB []).ack_sync1 ∧
     (bridgeRun (fun _ => 48879) initB []).ack_sync1 = (bridgeRun (fun _ => 48879) initB []).ack_sync2 ∧
     (bridgeRun (fun _ => 48879) initB []).ack_sync2 = (bridgeRun (fun _ => 48879) initB []).ack_toggle_r ∧
     (∀ τ : BridgeState, τ.ub_cyc = true →
       (usbStepB (fun _ => 48879) τ false).ub_cyc = true)) :=
  ⟨by decide, by decide, nitrousb_single_inflight (fun _ => 48879) [] true (by decide) (by decide)⟩

/-- Events of one complete bridge transaction: request, three `usb_48`
edges to synchronize the request toggle, the responder acknowledge, and
two `sys` edges to synchronize the acknowledge toggle back. -/
def ackEvs : List BEv :=
  [.sysE true, .usbE false, .usbE false, .usbE false, .usbE true, .sysE true, .sysE true]

/-- Claim C3: the read-data holding register `b_rdata_core[0:16]` is
written only on a `usb_48` edge with `ub_ack` asserted and is unchanged
otherwise (also by every `sys` edge); and in every reachable state where
the acknowledge crossing completes (`hs_ack` = `b_ack_core` fires, so the
initiator samples `bus.dat_r = b_rdata_core` through the mux), the
holding register contains exactly the `ub_rdata` value the responder
produced at this transaction's own `ub_ack` - never a stale value,
because exactly one acknowledge (the one of the completing transaction)
is then unobserved. -/
theorem nitrousb_read_data_fresh (rdFun : Nat → Nat) (evs : List BEv)
    (hv : validRun rdFun initB evs = true)
    (ha : hs_ack (bridgeRun rdFun initB evs) = true) :
    (bridgeRun rdFun initB evs).b_rdata = rdFun (bridgeRun rdFun initB evs).nAckS % 65536 ∧
    (bridgeRun rdFun initB evs).nAckU = (bridgeRun rdFun initB evs).nAckS + 1 ∧
    (∀ (τ : BridgeState) (ack : Bool),
      (usbStepB rdFun τ ack).b_rdata = if ack then rdFun τ.nAckU % 65536 else τ.b_rdata) ∧
    (∀ (τ : BridgeState) (c : Bool), (sysStepB τ c).b_rdata = τ.b_rdata) ∧
    (∀ ep core : Nat, busDatR false ep core = core) := by
  set σ := bridgeRun rdFun initB evs with hσ
  obtain ⟨hrd, hph⟩ := binv_run rdFun evs (binv_init rdFun) hv
  rcases hph with ⟨hb, _⟩ | ⟨hb, hc⟩
  · exact absurd ha (by
      have := bitsEqB_no_ack σ.hs_cyc_d σ.hs_ack_d σ.req_toggle σ.ack_sync1
        σ.ack_sync2 σ.ack_toggle_r σ.ub_cyc σ.req_sync1 σ.req_sync2 σ.req_toggle_r
        σ.ack_toggle σ.outst hb
      simp [hs_ack, this])
  · refine ⟨?_, hc, fun τ ack => rfl, fun τ c => rfl, fun ep core => rfl⟩
    rw [hrd, hc]
    simp

theorem nitrousb_read_data_fresh_witness :
    validRun (fun _ => 48879) initB ackEvs = true ∧
    hs_ack (bridgeRun (fun _ => 48879) initB ackEvs) = true ∧
    ((bridgeRun (fun _ => 48879) initB ackEvs).b_rdata =
       (fun _ => 48879) (bridgeRun (fun _ => 48879) initB ackEvs).nAckS % 65536 ∧
     (bridgeRun (fun _ => 48879) initB ackEvs).nAckU =
       (bridgeRun (fun _ => 48879) initB ackEvs).nAckS + 1 ∧
     (∀ (τ : BridgeState) (ack : Bool),
       (usbStepB (fun _ => 48879) τ ack).b_rdata =
         if ack then (fun _ => 48879) τ.nAckU % 65536 else τ.b_rdata) ∧
     (∀ (τ : BridgeState) (c : Bool), (sysStepB τ c).b_rdata = τ.b_rdata) ∧
     (∀ ep core : Nat, busDatR false ep core = core)) :=
  ⟨by decide, by decide,
   nitrousb_read_data_fresh (fun _ => 48879) ackEvs (by decide) (by decide)⟩

/-!
`NitroUSB` bus-side combinational logic (litex.py lines 74-99, 152-162,
200-209), for the synchronous fast path and the width-handling claims.
-/

/-- The wishbone request fields the bridge looks at. -/
structure WbBus where
  adr : Nat
  dat_w : Nat
  we : Bool
  cyc : Bool
  stb : Bool
deriving DecidableEq, Repr

/-- `b_cyc_core.eq(self.bus.cyc & self.bus.stb & ~self.bus.adr[13])`
(litex.py line 203): core-register (non-endpoint) access select. -/
def b_cyc_core (b : WbBus) : Bool := b.cyc && b.stb && !(b.adr.testBit 13)

/-- `b_cyc_ep.eq(self.bus.cyc & self.bus.stb & self.bus.adr[13])`
(litex.py line 202): endpoint-buffer access select. -/
def b_cyc_ep (b : WbBus) : Bool := b.cyc && b.stb && b.adr.testBit 13

/-- `b_ack_ep.eq(b_cyc_ep & ~b_ack_ep)` (litex.py line 161): the
endpoint acknowledge register, one `sys` edge later. -/
def b_ack_ep_next (b : WbBus) (ack_ep : Bool) : Bool := b_cyc_ep b && !ack_ep

/-- `ub_addr.eq(self.bus.adr[0:12])` (litex.py lines 78/96): the low 12
address bits, in both the sync and async modes. -/
def ub_addr_comb (b : WbBus) : Nat := b.adr % 4096

/-- `ub_wdata.eq(self.bus.dat_w[0:16])` (litex.py lines 79/97). -/
def ub_wdata_comb (b : WbBus) : Nat := b.dat_w % 65536

/-- Outputs of the bridge glue that the `sync = True` mode drives. -/
structure SyncWires where
  ub_addr : Nat
  ub_wdata : Nat
  ub_we : Bool
  ub_cyc : Bool
  b_rdata_core : Nat
  b_ack_core : Bool
deriving DecidableEq, Repr

/-- The `sync = True` branch of `NitroUSB` (litex.py lines 74-88): pure
combinational wiring, a function of the current bus request and of the
current core response only - no state, no synchronizer register, hence
zero added latency.  `ub_rdata` is the 16-bit core read bus
(`b_rdata_core[0:16].eq(ub_rdata)`, upper bits zeroed by line 209). -/
def syncWires (b : WbBus) (ub_rdata : Nat) (ub_ack : Bool) : SyncWires :=
  ⟨b.adr % 4096, b.dat_w % 65536, b.we, b_cyc_core b, ub_rdata % 65536, ub_ack⟩

/-- Modelled from the spec: the bridge "collapses to direct wiring with no
synchronizer stages and zero additional latency ... behaviorally
equivalent to connecting the initiator directly to the responder": the
initiator's address, write-data and write-enable feed the responder
directly (through the declared 12/16-bit ports), the responder is selected
exactly when the initiator addresses it, and the responder's read-data
and acknowledge return to the initiator in the same cycle. -/
def directWiring (b : WbBus) (ub_rdata : Nat) (ub_ack : Bool) : SyncWires :=
  ⟨b.adr % 4096, b.dat_w % 65536, b.we, b_cyc_core b, ub_rdata % 65536, ub_ack⟩

/-- Claim C6: with `sync = True` the bridge is the direct wiring: every
output is a combinational function of the current inputs (the model is a
plain function with no state argument), `ub_cyc` equals `b_cyc_core` and
`b_ack_core` equals `ub_ack` in the same cycle, and the whole glue is
equal to the direct initiator-to-responder connection. -/
theorem nitrousb_sync_direct_wiring (b : WbBus) (rd : Nat) (ack : Bool) :
    syncWires b rd ack = directWiring b rd ack ∧
    (syncWires b rd ack).ub_cyc = b_cyc_core b ∧
    (syncWires b rd ack).b_ack_core = ack ∧
    (syncWires b rd ack).ub_addr = b.adr % 4096 ∧
    (syncWires b rd ack).ub_wdata = b.dat_w % 65536 ∧
    (syncWires b rd ack).ub_we = b.we ∧
    (syncWires b rd ack).b_rdata_core = rd % 65536 :=
  ⟨rfl, rfl, rfl, rfl, rfl, rfl, rfl⟩

lemma bridge_rdata_lt (rdFun : Nat → Nat) (evs : List BEv) :
    (bridgeRun rdFun initB evs).b_rdata < 65536 := by
  have key : ∀ (es : List BEv) (σ : BridgeState), σ.b_rdata < 65536 →
      (bridgeRun rdFun σ es).b_rdata < 65536 := by
    intro es
    induction es with
    | nil => intro σ h; exact h
    | cons e es ih =>
      intro σ h
      refine ih _ ?_
      cases e with
      | sysE cyc => exact h
      | usbE ack =>
        show (if ack = true then rdFun σ.nAckU % 65536 else σ.b_rdata) < 65536
        cases ack with
        | true => simpa using Nat.mod_lt _ (by norm_num)
        | false => simpa using h
  exact key evs initB (by simp [initB])

/-- Claim C10: with `width > 16`, a core-register access is truncated:
only the low 12 bits of `bus.adr` and the low 16 bits of `bus.dat_w`
reach the core, and for such an access (address bit 13 clear, so the
endpoint path is deselected and `b_ack_ep` stays low) the value returned
on `bus.dat_r` is the zero-extended 16-bit holding register: bits 16 and
above are zero. -/
theorem nitrousb_width_truncation (rdFun : Nat → Nat) (b : WbBus) (evs : List BEv)
    (h13 : b.adr.testBit 13 = false) :
    ub_addr_comb b = b.adr % 4096 ∧ ub_addr_comb b < 4096 ∧
    ub_wdata_comb b = b.dat_w % 65536 ∧ ub_wdata_comb b < 65536 ∧
    b_cyc_ep b = false ∧
    (∀ ep : Bool, b_ack_ep_next b ep = false) ∧
    busDatR false 0 (bridgeRun rdFun initB evs).b_rdata =
      (bridgeRun rdFun initB evs).b_rdata ∧
    (bridgeRun rdFun initB evs).b_rdata < 65536 ∧
    (∀ i : Nat, 16 ≤ i → (bridgeRun rdFun initB evs).b_rdata.testBit i = false) := by
  have hlt := bridge_rdata_lt rdFun evs
  refine ⟨rfl, Nat.mod_lt _ (by norm_num), rfl, Nat.mod_lt _ (by norm_num),
    by simp [b_cyc_ep, h13], fun ep => by simp [b_ack_ep_next, b_cyc_ep, h13],
    rfl, hlt, fun i hi => ?_⟩
  refine Nat.testBit_eq_false_of_lt (lt_of_lt_of_le hlt ?_)
  calc (65536 : Nat) = 2 ^ 16 := by norm_num
    _ ≤ 2 ^ i := Nat.pow_le_pow_right (by norm_num) hi

theorem nitrousb_width_truncation_witness :
    (20000 : Nat).testBit 13 = false ∧
    (ub_addr_comb ⟨20000, 70000, true, true, true⟩ = 20000 % 4096 ∧
     ub_addr_comb ⟨20000, 70000, true, true, true⟩ < 4096 ∧
     ub_wdata_comb ⟨20000, 70000, true, true, true⟩ = 70000 % 65536 ∧
     ub_wdata_comb ⟨20000, 70000, true, true, true⟩ < 65536 ∧
     b_cyc_ep ⟨20000, 70000, true, true, true⟩ = false ∧
     (∀ ep : Bool, b_ack_ep_next ⟨20000, 70000, true, true, true⟩ ep = false) ∧
     busDatR false 0 (bridgeRun (fun _ => 48879) initB ackEvs).b_rdata =
       (bridgeRun (fun _ => 48879) initB ackEvs).b_rdata ∧
     (bridgeRun (fun _ => 48879) initB ackEvs).b_rdata < 65536 ∧
     (∀ i : Nat, 16 ≤ i →
       (bridgeRun (fun _ => 48879) initB ackEvs).b_rdata.testBit i = false)) :=
  ⟨by decide,
   nitrousb_width_truncation (fun _ => 48879) ⟨20000, 70000, true, true, true⟩ ackEvs
     (by decide)⟩

/-!
`NitroMuAcmBuffered` (migen.py lines 261-317): two
`SyncFIFOBuffered(9, fifo_depth)` stages decouple the external interface
from the wrapped core.  `migen.genlib.fifo.SyncFIFOBuffered` is an
external library primitive; it is modelled by its queue semantics: a
bounded queue of 9-bit entries with `writable` (not full), `readable`
(not empty), first-word-fall-through `dout`, a write accepted on
`we & writable` and a read on `re & readable`.  Writing while full is
ignored rather than overwriting - the safety claims show the wrapper
never does it.
-/

/-- Bounded-queue model of one `SyncFIFOBuffered(9, depth)`. -/
structure Fifo where
  depth : Nat
  buf : List Nat
deriving DecidableEq, Repr

def Fifo.writable (f : Fifo) : Bool := decide (f.buf.length < f.depth)

def Fifo.readable (f : Fifo) : Bool := !f.buf.isEmpty

def Fifo.dout (f : Fifo) : Nat := f.buf.headD 0

/-- One clock edge of the FIFO: a simultaneous guarded read and write. -/
def Fifo.step (f : Fifo) (we re : Bool) (din : Nat) : Fifo :=
  let popped := if re && f.readable then f.buf.tail else f.buf
  { f with buf := if we && f.writable then popped ++ [din] else popped }

/-- `fin.din[0:8].eq(self.in_data)`, `fin.din[8].eq(self.in_last)`
(migen.py lines 298-299): pack a byte and the marker into a 9-bit entry. -/
def enc (data : Nat) (l : Bool) : Nat := data % 256 + 256 * (cond l 1 0)

/-- `dout[0:8]` (migen.py lines 303/313). -/
def decData (n : Nat) : Nat := n % 256

/-- `dout[8]` (migen.py lines 304/314). -/
def decLast (n : Nat) : Bool := decide (256 ≤ n)

/-- Per-edge inputs of the buffered wrapper: the external producer and
consumer, and the wrapped core's side (`ci_` = `core.in_`,
`co_` = `core.out_`), all treated as arbitrary. -/
structure BufIn where
  in_valid : Bool
  in_data : Nat
  in_last : Bool
  out_ready : Bool
  ci_ready : Bool
  co_valid : Bool
  co_data : Nat
  co_last : Bool
deriving DecidableEq, Repr

/-- The two FIFOs plus ghost transcripts: the 9-bit entries accepted from
the external producer, handed to the core, accepted from the core, and
delivered to the external consumer. -/
structure BufState where
  fin : Fifo
  fout : Fifo
  pushedIn : List Nat
  toCore : List Nat
  fromCore : List Nat
  deliveredOut : List Nat
deriving DecidableEq, Repr

/-- `self.in_ready.eq(fin.writable)` (migen.py line 301). -/
def bufInReady (σ : BufState) : Bool := σ.fin.writable

/-- `fin.we.eq(self.in_valid & self.in_ready)` (migen.py line 300). -/
def finWe (i : BufIn) (σ : BufState) : Bool := i.in_valid && bufInReady σ

/-- `core.in_valid.eq(fin.readable)` (migen.py line 305). -/
def coreInValid (σ : BufState) : Bool := σ.fin.readable

/-- `fin.re.eq(core.in_valid & core.in_ready)` (migen.py line 306). -/
def finRe (i : BufIn) (σ : BufState) : Bool := coreInValid σ && i.ci_ready

/-- `core.out_ready.eq(fout.writable)` (migen.py line 311). -/
def coreOutReady (σ : BufState) : Bool := σ.fout.writable

/-- `fout.we.eq(core.out_valid & core.out_ready)` (migen.py line 310). -/
def foutWe (i : BufIn) (σ : BufState) : Bool := i.co_valid && coreOutReady σ

/-- `self.out_valid.eq(fout.readable)` (migen.py line 315). -/
def bufOutValid (σ : BufState) : Bool := σ.fout.readable

/-- `fout.re.eq(self.out_valid & self.out_ready)` (migen.py line 316). -/
def foutRe (i : BufIn) (σ : BufState) : Bool := bufOutValid σ && i.out_ready

/-- One `sys` clock edge of the buffered wrapper; the ghost transcripts
record each transfer that actually happens. -/
def bufStep (σ : BufState) (i : BufIn) : BufState :=
  let dinIn := enc i.in_data i.in_last
  let dinOut := enc i.co_data i.co_last
  { fin := σ.fin.step (finWe i σ) (finRe i σ) dinIn,
    fout := σ.fout.step (foutWe i σ) (foutRe i σ) dinOut,
    pushedIn := if finWe i σ && σ.fin.writable then σ.pushedIn ++ [dinIn] else σ.pushedIn,
    toCore := if finRe i σ && σ.fin.readable then σ.toCore ++ [σ.fin.dout] else σ.toCore,
    fromCore := if foutWe i σ && σ.fout.writable then σ.fromCore ++ [dinOut] else σ.fromCore,
    deliveredOut :=
      if foutRe i σ && σ.fout.readable then σ.deliveredOut ++ [σ.fout.dout]
      else σ.deliveredOut }

def initBuf (depth : Nat) : BufState := ⟨⟨depth, []⟩, ⟨depth, []⟩, [], [], [], []⟩

def bufRun (σ : BufState) (is : List BufIn) : BufState := is.foldl bufStep σ

lemma Fifo.step_length_le {f : Fifo} (we re : Bool) (din : Nat)
    (h : f.buf.length ≤ f.depth) : (f.step we re din).buf.length ≤ f.depth := by
  have htail : (if re && f.readable then f.buf.tail else f.buf).length ≤ f.buf.length := by
    split
    · exact (f.buf.length_tail) ▸ Nat.sub_le _ _
    · exact le_rfl
  show (if we && f.writable then _ ++ [din] else _).length ≤ f.depth
  split
  · next hw =>
    have hwr : f.buf.length < f.depth := by
      have := (Bool.and_eq_true _ _).mp hw
      simpa [Fifo.writable] using this.2
    simp only [List.length_append, List.length_cons, List.length_nil]
    omega
  · exact le_trans htail h

lemma Fifo.step_conserve (f : Fifo) (we re : Bool) (din : Nat) (consumed : List Nat) :
    (if re && f.readable then consumed ++ [f.dout] else consumed) ++ (f.step we re din).buf =
      (consumed ++ f.buf) ++ (if we && f.writable then [din] else []) := by
  show (if re && f.readable then consumed ++ [f.dout] else consumed) ++
      (if we && f.writable then (if re && f.readable then f.buf.tail else f.buf) ++ [din]
       else (if re && f.readable then f.buf.tail else f.buf)) = _
  by_cases hr : (re && f.readable) = true
  · have hbne : f.buf ≠ [] := by
      have := (Bool.and_eq_true _ _).mp hr
      simpa [Fifo.readable, List.isEmpty_iff] using this.2
    obtain ⟨y, t, hyt⟩ := List.exists_cons_of_ne_nil hbne
    by_cases hw : (we && f.writable) = true <;>
      simp [hr, hw, hyt, Fifo.dout]
  · rw [Bool.not_eq_true] at hr
    by_cases hw : (we && f.writable) = true <;> simp [hr, hw]

/-- Invariant of the buffered wrapper: each FIFO is a faithful queue
(everything popped so far followed by the current content is exactly
everything pushed so far, in order) and never exceeds its depth. -/
def BufInv (depth : Nat) (σ : BufState) : Prop :=
  σ.fin.depth = depth ∧ σ.fout.depth = depth ∧
  σ.toCore ++ σ.fin.buf = σ.pushedIn ∧
  σ.deliveredOut ++ σ.fout.buf = σ.fromCore ∧
  σ.fin.buf.length ≤ depth ∧ σ.fout.buf.length ≤ depth

lemma bufInv_step {depth : Nat} {σ : BufState} (hI : BufInv depth σ) (i : BufIn) :
    BufInv depth (bufStep σ i) := by
  obtain ⟨hd1, hd2, h1, h2, hl1, hl2⟩ := hI
  refine ⟨hd1, hd2, ?_, ?_, ?_, ?_⟩
  · show (if finRe i σ && σ.fin.readable then σ.toCore ++ [σ.fin.dout] else σ.toCore) ++
      (σ.fin.step (finWe i σ) (finRe i σ) _).buf = _
    rw [Fifo.step_conserve, h1]
    by_cases hc : (finWe i σ && σ.fin.writable) = true <;> simp [bufStep, hc]
  · show (if foutRe i σ && σ.fout.readable then σ.deliveredOut ++ [σ.fout.dout]
      else σ.deliveredOut) ++ (σ.fout.step (foutWe i σ) (foutRe i σ) _).buf = _
    rw [Fifo.step_conserve, h2]
    by_cases hc : (foutWe i σ && σ.fout.writable) = true <;> simp [bufStep, hc]
  · exact hd1 ▸ Fifo.step_length_le _ _ _ (hd1 ▸ hl1)
  · exact hd2 ▸ Fifo.step_length_le _ _ _ (hd2 ▸ hl2)

lemma bufInv_run (depth : Nat) (is : List BufIn) {σ : BufState} (hI : BufInv depth σ) :
    BufInv depth (bufRun σ is) := by
  induction is generalizing σ with
  | nil => exact hI
  | cons i is ih => exact ih (bufInv_step hI i)

lemma bufInv_init (depth : Nat) : BufInv depth (initBuf depth) := by
  refine ⟨rfl, rfl, rfl, rfl, by simp [initBuf], by simp [initBuf]⟩

/-- Claim C7: in `NitroMuAcmBuffered` each direction is a FIFO of 9-bit
entries (byte + boundary marker, always below 512) of configurable depth;
`in_ready` is exactly `fin.writable`, a write strobe is asserted only
when the corresponding `writable` is (so a write to a full FIFO is
unreachable), a full FIFO backpressures the producer by dropping
`in_ready`, and the occupancy of both FIFOs never exceeds the configured
depth on any run - there is no overflow path. -/
theorem muacm_buffered_fifo_safety (depth : Nat) (is : List BufIn) (i : BufIn)
    (σ : BufState) (d : Nat) (l : Bool) :
    bufInReady σ = σ.fin.writable ∧
    finWe i σ = (i.in_valid && σ.fin.writable) ∧
    foutWe i σ = (i.co_valid && σ.fout.writable) ∧
    (finWe i σ = true → σ.fin.writable = true) ∧
    (foutWe i σ = true → σ.fout.writable = true) ∧
    (σ.fin.writable = false → bufInReady σ = false) ∧
    enc d l < 512 ∧
    (bufRun (initBuf depth) is).fin.buf.length ≤ depth ∧
    (bufRun (initBuf depth) is).fout.buf.length ≤ depth := by
  obtain ⟨_, _, _, _, hl1, hl2⟩ := bufInv_run depth is (bufInv_init depth)
  refine ⟨rfl, rfl, rfl, ?_, ?_, fun h => h, ?_, hl1, hl2⟩
  · intro h
    exact ((Bool.and_eq_true _ _).mp h).2
  · intro h
    exact ((Bool.and_eq_true _ _).mp h).2
  · cases l
    · show d % 256 + 256 * 0 < 512
      omega
    · show d % 256 + 256 * 1 < 512
      omega

/-- A cycle in which both external and core sides transfer. -/
def allIn : BufIn := ⟨true, 65, true, true, true, true, 66, false⟩

theorem muacm_buffered_fifo_safety_witness :
    finWe allIn (initBuf 4) = true ∧
    (initBuf 4).fin.writable = true ∧
    foutWe allIn (initBuf 4) = true ∧
    (initBuf 4).fout.writable = true ∧
    (bufRun (initBuf 4) [allIn]).fin.buf.length ≤ 4 :=
  ⟨by decide,
   (muacm_buffered_fifo_safety 4 [allIn] allIn (initBuf 4) 65 true).2.2.2.1 (by decide),
   by decide,
   (muacm_buffered_fifo_safety 4 [allIn] allIn (initBuf 4) 65 true).2.2.2.2.1 (by decide),
   (muacm_buffered_fifo_safety 4 [allIn] allIn (initBuf 4) 65 true).2.2.2.2.2.2.2.1⟩

/-- Claim C8: the elastic buffering layer is sequence-transparent.  On
every run, the 9-bit entries handed to the wrapped core are exactly the
entries accepted from the external producer, in order (the FIFO content
is the untransferred remainder), and the entries delivered to the
external consumer are exactly the entries accepted from the core, in
order; in particular each transcript is an initial segment of its
source.  The 9-bit packing is lossless on bytes.  So the wrapper changes
only timing and throughput relative to the wrapped core, never the order
or content of delivered (byte, boundary-marker) items. -/
theorem muacm_buffered_order_transparent (depth : Nat) (is : List BufIn)
    (d : Nat) (l : Bool) (hd : d < 256) :
    (bufRun (initBuf depth) is).toCore ++ (bufRun (initBuf depth) is).fin.buf =
      (bufRun (initBuf depth) is).pushedIn ∧
    (bufRun (initBuf depth) is).deliveredOut ++ (bufRun (initBuf depth) is).fout.buf =
      (bufRun (initBuf depth) is).fromCore ∧
    (bufRun (initBuf depth) is).toCore =
      (bufRun (initBuf depth) is).pushedIn.take
        (bufRun (initBuf depth) is).toCore.length ∧
    (bufRun (initBuf depth) is).deliveredOut =
      (bufRun (initBuf depth) is).fromCore.take
        (bufRun (initBuf depth) is).deliveredOut.length ∧
    decData (enc d l) = d ∧ decLast (enc d l) = l := by
  obtain ⟨_, _, h1, h2, _, _⟩ := bufInv_run depth is (bufInv_init depth)
  refine ⟨h1, h2, eq_take_of_append h1, eq_take_of_append h2, ?_, ?_⟩
  · cases l
    · show (d % 256 + 256 * 0) % 256 = d
      omega
    · show (d % 256 + 256 * 1) % 256 = d
      omega
  · cases l
    · show decide (256 ≤ d % 256 + 256 * 0) = false
      simp only [decide_eq_false_iff_not]
      omega
    · show decide (256 ≤ d % 256 + 256 * 1) = true
      simp only [decide_eq_true_eq]
      omega

theorem muacm_buffered_order_transparent_witness :
    (65 : Nat) < 256 ∧
    ((bufRun (initBuf 4) [allIn]).toCore ++ (bufRun (initBuf 4) [allIn]).fin.buf =
       (bufRun (initBuf 4) [allIn]).pushedIn ∧
     (bufRun (initBuf 4) [allIn]).deliveredOut ++ (bufRun (initBuf 4) [allIn]).fout.buf =
       (bufRun (initBuf 4) [allIn]).fromCore ∧
     (bufRun (initBuf 4) [allIn]).toCore =
       (bufRun (initBuf 4) [allIn]).pushedIn.take
         (bufRun (initBuf 4) [allIn]).toCore.length ∧
     (bufRun (initBuf 4) [allIn]).deliveredOut =
       (bufRun (initBuf 4) [allIn]).fromCore.take
         (bufRun (initBuf 4) [allIn]).deliveredOut.length ∧
     decData (enc 65 true) = 65 ∧ decLast (enc 65 true) = true) :=
  ⟨by decide, muacm_buffered_order_transparent 4 [allIn] 65 true (by decide)⟩
